import Mathlib

/-!
# Fast Bessel Transform (Ogata quadrature): embedding of `cpp/FBT.cpp`

The number type `α` stands for the C++ `double`.  Its arithmetic is taken
through the usual operator classes and is not assumed to obey any law, so
every statement proved for all `α` holds for IEEE doubles (NaN included) as
well as for the real numbers.  The functions of `<cmath>` are the fields of
`Libm`, the Boost routines the fields of `Boost`; a Boost routine that can
throw returns an `Except`.
-/

namespace Ogata

/-! ## Data model -/

/-- Functions and constants of the C math library used by `FBT.cpp`, over
the number type `α` that stands for `double`. -/
structure Libm (α : Type) where
  /-- The constant `M_PI`. -/
  pi : α
  sinh : α → α
  cosh : α → α
  tanh : α → α
  asinh : α → α
  atanh : α → α
  /-- The two-argument `pow`. -/
  pow : α → α → α
  /-- The floating `abs`. -/
  abs : α → α
  isnan : α → Bool

/-- Boost.Math routines called by `FBT.cpp`.  `ε` is the type of the
exceptions (all derived from `std::exception`) they may throw.
`cyl_bessel_j_zero v start count` writes through a back-inserter: it yields
the entries it appended and the exception that ended it, if any. -/
structure Boost (α ε : Type) where
  cyl_bessel_j : α → α → Except ε α
  cyl_neumann : α → α → Except ε α
  cyl_bessel_j_zero : α → Int → Nat → List α × Option ε
  brent_find_minima : (α → α) → α → α → Nat → Except ε (α × α)

/-- The static members `FBT::nu_def`, `FBT::N_def`, `FBT::Q_def`, declared
in the header `FBT.h`. -/
structure Defaults (α : Type) where
  nu_def : α
  N_def : Int
  Q_def : α

/-- Data members of the class `FBT`. -/
structure FBT (α : Type) where
  nu : α
  N : Int
  Q : α
  jn_zeros0 : List α

/-- Lines written to `std::cerr` / `std::cout`. -/
inductive Diag (α ε : Type) where
  /-- " The value of nu = ... is not supported." -/
  | nu_unsupported (v : α)
  /-- " Falling back to default  nu = ..." -/
  | nu_fallback (d : α)
  /-- " The value of N = ... is not supported." -/
  | N_unsupported (v : Int)
  /-- " Falling back to default  N = ..." -/
  | N_fallback (d : Int)
  /-- " The value of Q = ... is not supported." -/
  | Q_unsupported (v : α)
  /-- " Falling back to default  Q = ..." -/
  | Q_fallback (d : α)
  /-- "Thrown exception ..." with `ex.what()`. -/
  | thrown (e : ε)
  /-- The banner printed by `FBT::acknowledgement`. -/
  | acknowledgement
  /-- "Warning: Number of nodes is too small ..." with `this->N`. -/
  | too_few_nodes (n : Int)

/-- Ways a call can end without returning: an exception leaves the call, or
a vector is read out of bounds (undefined behaviour). -/
inductive Fault (ε : Type) where
  | raised (e : ε)
  | undefined

/-- What a member function leaves behind when it returns: the returned
value, the object after the call, and the lines it printed. -/
structure Ret (α ε β : Type) where
  val : β
  self : FBT α
  out : List (Diag α ε)

/-- Result of calling a member function. -/
abbrev Outcome (α ε β : Type) := Except (Fault ε) (Ret α ε β)

/-- Conversion of an `int` to `size_t` (64 bits). -/
def toSizeT (n : Int) : Nat := (n % 2 ^ 64).toNat

/-- The constant `maxN` of the constructor. -/
def maxN : Nat := 32769

/-- The value of `std::numeric_limits<double>::digits`. -/
def double_bits : Nat := 53

/-! ## Operations -/

section Operations

variable {α ε : Type}
variable [Add α] [Sub α] [Mul α] [Div α] [Neg α]
variable [OfNat α 0] [OfNat α 1] [OfNat α 2] [OfNat α 3] [OfNat α 10]
variable [LE α] [LT α] [DecidableRel (fun a b : α => a ≤ b)] [DecidableRel (fun a b : α => a < b)]

/-- Validation of `_nu` in the constructor: the stored order and the lines
printed. -/
def init_nu (D : Defaults α) (_nu : α) : α × List (Diag α ε) :=
  if _nu ≥ 0 then (_nu, [])
  else (D.nu_def, [.nu_unsupported _nu, .nu_fallback D.nu_def])

/-- Validation of `_N` in the constructor. -/
def init_N (D : Defaults α) (_N : Int) : Int × List (Diag α ε) :=
  if _N ≥ 1 then (_N, [])
  else (D.N_def, [.N_unsupported _N, .N_fallback D.N_def])

/-- Validation of `_Q` in the constructor. -/
def init_Q (D : Defaults α) (_Q : α) : α × List (Diag α ε) :=
  if _Q > 0 then (_Q, [])
  else (D.Q_def, [.Q_unsupported _Q, .Q_fallback D.Q_def])

/-- The constructor `FBT::FBT(double _nu, int _N, double _Q)`.  The result is
an `Except` so that a constructor that throws could be told apart from one
that returns; this one catches what `cyl_bessel_j_zero` throws. -/
def construct (D : Defaults α) (B : Boost α ε) (_nu : α) (_N : Int) (_Q : α) :
    Except ε (FBT α × List (Diag α ε)) :=
  let rnu : α × List (Diag α ε) := init_nu D _nu
  let rN : Int × List (Diag α ε) := init_N D _N
  let rQ : α × List (Diag α ε) := init_Q D _Q
  let filled := B.cyl_bessel_j_zero rnu.1 1 maxN
  let caught : List (Diag α ε) :=
    match filled.2 with
    | none => []
    | some ex => [.thrown ex]
  .ok ({ nu := rnu.1, N := rN.1, Q := rQ.1, jn_zeros0 := filled.1 },
       rnu.2 ++ rN.2 ++ rQ.2 ++ caught ++ [.acknowledgement])

/-- The function `get_psi`. -/
def get_psi (L : Libm α) (t : α) : α :=
  t * L.tanh (L.pi / 2 * L.sinh t)

/-- The function `get_psip`. -/
def get_psip (L : Libm α) (t : α) : α :=
  L.pi * t * (-L.pow (L.tanh (L.pi * L.sinh t / 2)) 2 + 1) * L.cosh t / 2
    + L.tanh (L.pi * L.sinh t / 2)

/-- The function `f_for_ogata`. -/
def f_for_ogata (x : α) (g : α → α) (q : α) : α :=
  g (x / q) / q

/-- One pass through the loop body of `FBT::ogatat` for the table entry `z`:
the amount added to `val`, or the exception thrown by a Bessel call. -/
def ogatat_term (L : Libm α) (B : Boost α ε) (nu : α) (f : α → α) (q h z : α) :
    Except ε α :=
  let xi := z / L.pi
  match B.cyl_bessel_j (nu + 1) (L.pi * xi) with
  | .error ex => .error ex
  | .ok Jp1 =>
    match B.cyl_neumann nu (L.pi * xi) with
    | .error ex => .error ex
    | .ok y =>
      let w := y / Jp1
      let knots := L.pi / h * get_psi L (h * xi)
      match B.cyl_bessel_j nu knots with
      | .error ex => .error ex
      | .ok Jnu =>
        let temp := get_psip L (h * xi)
        let psip := if L.isnan temp then 1 else temp
        let F := f_for_ogata knots f q
        .ok (L.pi * w * F * Jnu * psip)

/-- One pass through the loop body of `FBT::ogatau` for the table entry `z`. -/
def ogatau_term (L : Libm α) (B : Boost α ε) (nu : α) (f : α → α) (q h z : α) :
    Except ε α :=
  let xi := z / L.pi
  match B.cyl_bessel_j (nu + 1) (L.pi * xi) with
  | .error ex => .error ex
  | .ok Jp1 =>
    match B.cyl_neumann nu (L.pi * xi) with
    | .error ex => .error ex
    | .ok y =>
      let w := y / Jp1
      let knots := xi * h
      match B.cyl_bessel_j nu knots with
      | .error ex => .error ex
      | .ok Jnu =>
        let F := f_for_ogata knots f q * Jnu
        .ok (h * w * F)

/-- The loop `for (size_t i = 0; i < N; i++)` inside `try`, shared in shape
by `ogatat` and `ogatau`: `rem` passes remain, the next index is `i`, the
running sum is `val`.  Reading `jn_zeros0[i]` past the end is undefined; an
exception thrown by the body is caught, printed, and `val` is returned. -/
def sum_loop (term : α → Except ε α) (e : FBT α) : Nat → Nat → α → Outcome α ε α
  | 0, _, val => .ok ⟨val, e, []⟩
  | rem + 1, i, val =>
    match e.jn_zeros0[i]? with
    | none => .error .undefined
    | some z =>
      match term z with
      | .error ex => .ok ⟨val, e, [.thrown ex]⟩
      | .ok t => sum_loop term e rem (i + 1) (val + t)

/-- The member function `FBT::ogatat`.  Its scratch vectors are local to the
call; only the amount each pass adds to `val` is kept. -/
def ogatat (L : Libm α) (B : Boost α ε) (e : FBT α) (f : α → α) (q h : α) :
    Outcome α ε α :=
  sum_loop (ogatat_term L B e.nu f q h) e (toSizeT e.N) 0 0

/-- The member function `FBT::ogatau`.  Its scratch vectors are local to the
call; only the amount each pass adds to `val` is kept. -/
def ogatau (L : Libm α) (B : Boost α ε) (e : FBT α) (f : α → α) (q h : α) :
    Outcome α ε α :=
  sum_loop (ogatau_term L B e.nu f q h) e (toSizeT e.N) 0 0

/-- The function `f_for_get_hu`. -/
def f_for_get_hu (L : Libm α) (x : α) (g : α → α) (q : α) : α :=
  -L.abs (x * g (x / q))

/-- The member function `FBT::get_hu`. -/
def get_hu (L : Libm α) (B : Boost α ε) (e : FBT α) (f : α → α) (q : α) :
    Outcome α ε α :=
  match e.jn_zeros0[0]? with
  | none => .error .undefined
  | some zero1 =>
    match B.brent_find_minima (fun x => f_for_get_hu L x f q) (e.Q / 10) (10 * e.Q)
        double_bits with
    | .error ex => .error (.raised ex)
    | .ok r =>
      let hu := r.1 / zero1
      if hu ≥ 3 then .ok ⟨3, e, [.too_few_nodes e.N]⟩
      else .ok ⟨hu, e, []⟩

/-- The function `f_for_get_ht`. -/
def f_for_get_ht (L : Libm α) (x hu zeroN : α) : α :=
  hu - L.pi * L.tanh (L.pi / 2 * L.sinh (x * zeroN / L.pi))

/-- The member function `FBT::get_ht`. -/
def get_ht (L : Libm α) (e : FBT α) (hu : α) : Outcome α ε α :=
  match e.jn_zeros0[toSizeT (e.N - 1)]? with
  | none => .error .undefined
  | some zeroN =>
    .ok ⟨1 / L.pi / zeroN * L.asinh (2 / L.pi * L.atanh (hu / L.pi)), e, []⟩

/-- The member function `FBT::fbtu`. -/
def fbtu (L : Libm α) (B : Boost α ε) (e : FBT α) (g : α → α) (q : α) :
    Outcome α ε α :=
  match get_hu L B e g q with
  | .error x => .error x
  | .ok r1 =>
    match ogatau L B r1.self g q r1.val with
    | .error x => .error x
    | .ok r2 => .ok ⟨r2.val, r2.self, r1.out ++ r2.out⟩

/-- The member function `FBT::fbt`. -/
def fbt (L : Libm α) (B : Boost α ε) (e : FBT α) (g : α → α) (q : α) :
    Outcome α ε α :=
  match get_hu L B e g q with
  | .error x => .error x
  | .ok r1 =>
    match get_ht L r1.self r1.val with
    | .error x => .error x
    | .ok r2 =>
      match ogatat L B r2.self g q r2.val with
      | .error x => .error x
      | .ok r3 => .ok ⟨r3.val, r3.self, r1.out ++ r2.out ++ r3.out⟩

end Operations

/-! ## The sums named by the specification -/

section SpecSide

variable {α ε : Type}
variable [Add α] [Sub α] [Mul α] [Div α] [Neg α]
variable [OfNat α 0] [OfNat α 1] [OfNat α 2] [OfNat α 3] [OfNat α 10]

/-- Contribution of the table entry `z` to the untransformed sum, as the
specification writes it (steps 1 to 5 of its section 4.2), with `J` and `Y`
the Bessel functions of the first and second kind: `xi = z/pi`,
`w = Y_nu(pi*xi) / J_{nu+1}(pi*xi)`, `knot = xi*h`,
`sample = g(knot/q)/q * J_nu(knot)`, contribution `h * w * sample`. -/
def plain_contribution (L : Libm α) (J Y : α → α → α) (nu : α) (g : α → α)
    (q h z : α) : α :=
  let xi := z / L.pi
  let w := Y nu (L.pi * xi) / J (nu + 1) (L.pi * xi)
  let knot := xi * h
  let sample := g (knot / q) / q * J nu knot
  h * w * sample

/-- The same contribution written as the flat product
`h * w * (g(knot/q)/q) * J_nu(knot)`. -/
def plain_contribution_flat (L : Libm α) (J Y : α → α → α) (nu : α) (g : α → α)
    (q h z : α) : α :=
  let xi := z / L.pi
  let w := Y nu (L.pi * xi) / J (nu + 1) (L.pi * xi)
  let knot := xi * h
  h * w * (g (knot / q) / q) * J nu knot

/-- Contribution of the table entry `z` to the transformed sum, as the
specification writes it (steps 1 to 7 of its section 4.3):
`pi * w * (g(knot/q)/q) * J_nu(knot) * p` with
`knot = (pi/h) * psi(h*xi)` and `p = psi'(h*xi)`, or `1` when that is NaN. -/
def de_contribution (L : Libm α) (J Y : α → α → α) (nu : α) (g : α → α)
    (q h z : α) : α :=
  let xi := z / L.pi
  let w := Y nu (L.pi * xi) / J (nu + 1) (L.pi * xi)
  let knot := L.pi / h * get_psi L (h * xi)
  let p := if L.isnan (get_psip L (h * xi)) = true then 1 else get_psip L (h * xi)
  L.pi * w * (g (knot / q) / q) * J nu knot * p

/-- Sum of `c z[i]` over `i = 0 .. n-1`, accumulated from `0` in increasing
order of `i`. -/
def sum_first (c : α → α) (zs : List α) (n : Nat) : α :=
  (zs.take n).foldl (fun acc z => acc + c z) 0

/-- The three Bessel calls made on a table entry `z` by `ogatau` succeed and
return the values of `J` and `Y`. -/
def PlainCallsSucceed (L : Libm α) (B : Boost α ε) (J Y : α → α → α) (nu h z : α) :
    Prop :=
  B.cyl_bessel_j (nu + 1) (L.pi * (z / L.pi)) = .ok (J (nu + 1) (L.pi * (z / L.pi))) ∧
  B.cyl_neumann nu (L.pi * (z / L.pi)) = .ok (Y nu (L.pi * (z / L.pi))) ∧
  B.cyl_bessel_j nu (z / L.pi * h) = .ok (J nu (z / L.pi * h))

/-- The three Bessel calls made on a table entry `z` by `ogatat` succeed and
return the values of `J` and `Y`. -/
def DeCallsSucceed (L : Libm α) (B : Boost α ε) (J Y : α → α → α) (nu h z : α) :
    Prop :=
  B.cyl_bessel_j (nu + 1) (L.pi * (z / L.pi)) = .ok (J (nu + 1) (L.pi * (z / L.pi))) ∧
  B.cyl_neumann nu (L.pi * (z / L.pi)) = .ok (Y nu (L.pi * (z / L.pi))) ∧
  B.cyl_bessel_j nu (L.pi / h * get_psi L (h * (z / L.pi)))
    = .ok (J nu (L.pi / h * get_psi L (h * (z / L.pi))))

/-- A diagnostic about the order `nu`. -/
def Diag.isNu : Diag α ε → Bool
  | .nu_unsupported _ => true
  | .nu_fallback _ => true
  | _ => false

/-- A diagnostic about the count `N`. -/
def Diag.isN : Diag α ε → Bool
  | .N_unsupported _ => true
  | .N_fallback _ => true
  | _ => false

/-- A diagnostic about the scale `Q`. -/
def Diag.isQ : Diag α ε → Bool
  | .Q_unsupported _ => true
  | .Q_fallback _ => true
  | _ => false

/-- The warning of `get_hu` that the number of nodes is too small. -/
def Diag.isTooFew : Diag α ε → Bool
  | .too_few_nodes _ => true
  | _ => false

end SpecSide

/-- The math library computes in exact real arithmetic: every function is
the real function of that name, `atanh` inverts `tanh` on `(-1, 1)`, and no
value is NaN. -/
structure ExactReal (L : Libm ℝ) : Prop where
  pi_eq : L.pi = Real.pi
  sinh_eq : L.sinh = Real.sinh
  cosh_eq : L.cosh = Real.cosh
  tanh_eq : L.tanh = Real.tanh
  asinh_eq : L.asinh = Real.arsinh
  tanh_atanh : ∀ y : ℝ, -1 < y → y < 1 → Real.tanh (L.atanh y) = y
  pow_eq : L.pow = fun x y => x ^ y
  abs_eq : L.abs = fun x => |x|
  isnan_eq : ∀ x : ℝ, L.isnan x = false

/-! ## Small concrete instances over the integers -/

/-- A stand-in math library over `Int`, with `pi = 3`. -/
def toyLibm : Libm Int where
  pi := 3
  sinh := fun x => x
  cosh := fun _ => 1
  tanh := fun x => x
  asinh := fun x => x
  atanh := fun x => x
  pow := fun x y => x ^ y.toNat
  abs := fun x => (x.natAbs : Int)
  isnan := fun x => decide (x = 5)

/-- Stand-in Boost routines that never throw. -/
def okBoost : Boost Int String where
  cyl_bessel_j := fun v x => .ok (v + x)
  cyl_neumann := fun v x => .ok (v + 2 * x)
  cyl_bessel_j_zero := fun _ _ n => ((List.range n).map (fun (k : Nat) => 3 * (Int.ofNat k + 1)), none)
  brent_find_minima := fun f lo _ _ => .ok (6 * lo, f (6 * lo))

/-- Stand-in Boost routines whose `cyl_bessel_j` throws for arguments above
`5` and whose zero finder throws before it has appended an entry. -/
def failingBoost : Boost Int String where
  cyl_bessel_j := fun _ x => if x ≤ 5 then .ok 1 else .error "domain error"
  cyl_neumann := fun _ _ => .ok 2
  cyl_bessel_j_zero := fun _ _ _ => ([], some "evaluation error")
  brent_find_minima := fun f _ hi _ => .ok (hi, f hi)

/-- Stand-in default values. -/
def toyDefaults : Defaults Int where
  nu_def := 0
  N_def := 10
  Q_def := 1

/-- An engine with three nodes over the table `3, 6, 9, 12`. -/
def toyEngine : FBT Int where
  nu := 0
  N := 3
  Q := 10
  jn_zeros0 := [3, 6, 9, 12]

/-! ## The quadrature loop -/

section Quadrature

variable {α ε : Type}

/-- When every pass succeeds and every index is in the table, the loop
returns the left-to-right sum and prints nothing. -/
theorem sum_loop_ok [Add α] (term : α → Except ε α) (c : α → α) (e : FBT α) :
    ∀ (rem i : Nat) (val : α), i + rem ≤ e.jn_zeros0.length →
      (∀ z ∈ (e.jn_zeros0.drop i).take rem, term z = .ok (c z)) →
      sum_loop term e rem i val
        = .ok ⟨((e.jn_zeros0.drop i).take rem).foldl (fun acc z => acc + c z) val, e, []⟩ := by
  intro rem
  induction rem with
  | zero => intro i val _ _; simp [sum_loop]
  | succ rem ih =>
    intro i val hlen hok
    have hi : i < e.jn_zeros0.length := by omega
    have hdrop : e.jn_zeros0.drop i = e.jn_zeros0[i] :: e.jn_zeros0.drop (i + 1) :=
      List.drop_eq_getElem_cons hi
    have hget : e.jn_zeros0[i]? = some e.jn_zeros0[i] := List.getElem?_eq_getElem hi
    rw [hdrop] at hok
    have hz : term e.jn_zeros0[i] = .ok (c e.jn_zeros0[i]) :=
      hok _ (List.mem_cons_self _ _)
    have hrest : ∀ z ∈ (e.jn_zeros0.drop (i + 1)).take rem, term z = .ok (c z) := by
      intro z hzmem
      exact hok z (List.mem_cons_of_mem _ hzmem)
    have := ih (i + 1) (val + c e.jn_zeros0[i]) (by omega) hrest
    rw [hdrop]
    simp only [sum_loop, hget, hz, this, List.take_succ_cons, List.foldl_cons]

/-- When the passes for the first `k` entries succeed and the pass for entry
`k` throws, the loop returns the sum of the first `k` contributions and
prints the exception. -/
theorem sum_loop_caught [Add α] (term : α → Except ε α) (c : α → α) (e : FBT α) (ex : ε) :
    ∀ (k rem i : Nat) (val zk : α), k < rem →
      (∀ z ∈ (e.jn_zeros0.drop i).take k, term z = .ok (c z)) →
      e.jn_zeros0[i + k]? = some zk → term zk = .error ex →
      sum_loop term e rem i val
        = .ok ⟨((e.jn_zeros0.drop i).take k).foldl (fun acc z => acc + c z) val, e,
            [.thrown ex]⟩ := by
  intro k
  induction k with
  | zero =>
    intro rem i val zk hk _ hget hthrow
    obtain ⟨r, rfl⟩ : ∃ r, rem = r + 1 := ⟨rem - 1, by omega⟩
    simp only [Nat.add_zero] at hget
    simp [sum_loop, hget, hthrow]
  | succ k ih =>
    intro rem i val zk hk hok hget hthrow
    obtain ⟨r, rfl⟩ : ∃ r, rem = r + 1 := ⟨rem - 1, by omega⟩
    have hi : i < e.jn_zeros0.length := by
      have := List.getElem?_eq_some.mp hget
      obtain ⟨h, _⟩ := this
      omega
    have hdrop : e.jn_zeros0.drop i = e.jn_zeros0[i] :: e.jn_zeros0.drop (i + 1) :=
      List.drop_eq_getElem_cons hi
    have hgeti : e.jn_zeros0[i]? = some e.jn_zeros0[i] := List.getElem?_eq_getElem hi
    rw [hdrop] at hok
    have hz : term e.jn_zeros0[i] = .ok (c e.jn_zeros0[i]) :=
      hok _ (List.mem_cons_self _ _)
    have hrest : ∀ z ∈ (e.jn_zeros0.drop (i + 1)).take k, term z = .ok (c z) := by
      intro z hzmem
      exact hok z (List.mem_cons_of_mem _ hzmem)
    have hget2 : e.jn_zeros0[i + 1 + k]? = some zk := by
      rw [← hget]; congr 1; omega
    have := ih r (i + 1) (val + c e.jn_zeros0[i]) zk (by omega) hrest hget2 hthrow
    rw [hdrop]
    simp only [sum_loop, hgeti, hz, this, List.take_succ_cons, List.foldl_cons]

/-- When every pass succeeds and the loop is asked for more entries than the
table holds, it reads past the end of the table. -/
theorem sum_loop_undefined [Add α] (term : α → Except ε α) (e : FBT α)
    (hterm : ∀ z, ∃ t, term z = .ok t) :
    ∀ (rem i : Nat) (val : α), i ≤ e.jn_zeros0.length → e.jn_zeros0.length < i + rem →
      sum_loop term e rem i val = .error .undefined := by
  intro rem
  induction rem with
  | zero => intro i val h1 h2; omega
  | succ rem ih =>
    intro i val h1 h2
    rcases Nat.lt_or_ge i e.jn_zeros0.length with hi | hi
    · have hget : e.jn_zeros0[i]? = some e.jn_zeros0[i] := List.getElem?_eq_getElem hi
      obtain ⟨t, ht⟩ := hterm e.jn_zeros0[i]
      have := ih (i + 1) (val + t) (by omega) (by omega)
      simp only [sum_loop, hget, ht, this]
    · have hget : e.jn_zeros0[i]? = none := List.getElem?_eq_none hi
      simp only [sum_loop, hget]


/-! ## The quadrature sums -/

/-- For a count in the range of `int`, the conversion to `size_t` keeps the
value. -/
theorem toSizeT_of_nonneg (n : Int) (h0 : 0 ≤ n) (h1 : n < 2 ^ 31) :
    toSizeT n = n.toNat := by
  unfold toSizeT
  rw [Int.emod_eq_of_lt h0 (by omega)]

/-- A pass of `ogatau` whose Bessel calls succeed adds the contribution the
specification names. -/
theorem ogatau_term_ok [Add α] [Mul α] [Div α] [OfNat α 1]
    (L : Libm α) (B : Boost α ε) (J Y : α → α → α) (nu : α)
    (g : α → α) (q h z : α) (hc : PlainCallsSucceed L B J Y nu h z) :
    ogatau_term L B nu g q h z = .ok (plain_contribution L J Y nu g q h z) := by
  obtain ⟨h1, h2, h3⟩ := hc
  simp only [ogatau_term, plain_contribution, f_for_ogata, h1, h2, h3]

/-- A pass of `ogatat` whose Bessel calls succeed adds the contribution the
specification names. -/
theorem ogatat_term_ok [Add α] [Mul α] [Div α] [Neg α] [OfNat α 1] [OfNat α 2]
    (L : Libm α) (B : Boost α ε) (J Y : α → α → α) (nu : α)
    (g : α → α) (q h z : α) (hc : DeCallsSucceed L B J Y nu h z) :
    ogatat_term L B nu g q h z = .ok (de_contribution L J Y nu g q h z) := by
  obtain ⟨h1, h2, h3⟩ := hc
  simp only [ogatat_term, de_contribution, f_for_ogata, h1, h2, h3]

/-- With associative multiplication the contribution of `ogatau` is the flat
product. -/
theorem plain_contribution_eq_flat [Add α] [Mul α] [Div α] [OfNat α 1]
    (L : Libm α) (J Y : α → α → α) (nu : α)
    (g : α → α) (q h : α) (hassoc : ∀ a b c : α, a * b * c = a * (b * c)) :
    plain_contribution L J Y nu g q h = plain_contribution_flat L J Y nu g q h := by
  funext z
  simp only [plain_contribution, plain_contribution_flat]
  rw [← hassoc]

/-- C1. For every engine whose count `N` is a non-negative `int` not above
the length of its zero table, every `g`, `q` and step `h`: when the Bessel
calls made on the first `N` table entries all succeed (returning the values of
`J` and `Y`), `ogatau` returns, with the engine unchanged and nothing
printed, the sum over `i = 0 .. N-1` of `h * w_i * sample_i`, where
`xi_i = z[i]/pi`, `w_i = Y_nu(pi*xi_i) / J_{nu+1}(pi*xi_i)`,
`knot_i = xi_i * h` and `sample_i = g(knot_i/q)/q * J_nu(knot_i)`, added up
from `0` in increasing order of `i`; where multiplication is associative this
is the sum of the flat products `h * w_i * (g(knot_i/q)/q) * J_nu(knot_i)`. -/
theorem ogatau_returns_plain_sum [Add α] [Mul α] [Div α] [OfNat α 0] [OfNat α 1]
    (L : Libm α) (B : Boost α ε) (J Y : α → α → α)
    (e : FBT α) (g : α → α) (q h : α)
    (hN0 : 0 ≤ e.N) (hN1 : e.N < 2 ^ 31) (hlen : e.N.toNat ≤ e.jn_zeros0.length)
    (hcalls : ∀ z ∈ e.jn_zeros0.take e.N.toNat, PlainCallsSucceed L B J Y e.nu h z) :
    ogatau L B e g q h
      = .ok ⟨sum_first (plain_contribution L J Y e.nu g q h) e.jn_zeros0 e.N.toNat, e, []⟩
    ∧ ((∀ a b c : α, a * b * c = a * (b * c)) →
        ogatau L B e g q h
          = .ok ⟨sum_first (plain_contribution_flat L J Y e.nu g q h) e.jn_zeros0 e.N.toNat,
              e, []⟩) := by
  have key : ogatau L B e g q h
      = .ok ⟨sum_first (plain_contribution L J Y e.nu g q h) e.jn_zeros0 e.N.toNat, e, []⟩ := by
    have := sum_loop_ok (ogatau_term L B e.nu g q h) (plain_contribution L J Y e.nu g q h) e
      e.N.toNat 0 0 (by omega)
      (fun z hz => ogatau_term_ok L B J Y e.nu g q h z (hcalls z (by simpa using hz)))
    simpa [ogatau, sum_first, toSizeT_of_nonneg e.N hN0 hN1] using this
  refine ⟨key, fun hassoc => ?_⟩
  rw [key, plain_contribution_eq_flat L J Y e.nu g q h hassoc]

/-- Instance of C1: three nodes over the table `3, 6, 9, 12` with Bessel
routines that never throw; the sum returned is `14`. -/
theorem ogatau_returns_plain_sum_witness :
    ogatau toyLibm okBoost toyEngine (fun x => x) 1 1
      = .ok ⟨sum_first (plain_contribution toyLibm (fun v x => v + x) (fun v x => v + 2 * x)
              toyEngine.nu (fun x => x) 1 1) toyEngine.jn_zeros0 toyEngine.N.toNat,
            toyEngine, []⟩
    ∧ sum_first (plain_contribution toyLibm (fun v x => v + x) (fun v x => v + 2 * x)
              toyEngine.nu (fun x => x) 1 1) toyEngine.jn_zeros0 toyEngine.N.toNat = 14 :=
  ⟨(ogatau_returns_plain_sum toyLibm okBoost (fun v x => v + x) (fun v x => v + 2 * x)
    toyEngine (fun x => x) 1 1 (by decide) (by decide) (by decide)
    (fun _ _ => ⟨rfl, rfl, rfl⟩)).1, by decide⟩

/-- C2. For every engine whose count `N` is a non-negative `int` not above
the length of its zero table, every `g`, `q` and step `h`: when the Bessel
calls made on the first `N` table entries all succeed, `ogatat` returns, with
the engine unchanged and nothing printed, the sum over `i = 0 .. N-1` of
`pi * w_i * (g(knot_i/q)/q) * J_nu(knot_i) * p_i`, where `xi_i = z[i]/pi`,
`w_i = Y_nu(pi*xi_i) / J_{nu+1}(pi*xi_i)`, `knot_i = (pi/h) * psi(h*xi_i)`
and `p_i = psi'(h*xi_i)`, replaced by `1` when that value is NaN. -/
theorem ogatat_returns_de_sum [Add α] [Mul α] [Div α] [Neg α]
    [OfNat α 0] [OfNat α 1] [OfNat α 2]
    (L : Libm α) (B : Boost α ε) (J Y : α → α → α)
    (e : FBT α) (g : α → α) (q h : α)
    (hN0 : 0 ≤ e.N) (hN1 : e.N < 2 ^ 31) (hlen : e.N.toNat ≤ e.jn_zeros0.length)
    (hcalls : ∀ z ∈ e.jn_zeros0.take e.N.toNat, DeCallsSucceed L B J Y e.nu h z) :
    ogatat L B e g q h
      = .ok ⟨sum_first (de_contribution L J Y e.nu g q h) e.jn_zeros0 e.N.toNat, e, []⟩ := by
  have := sum_loop_ok (ogatat_term L B e.nu g q h) (de_contribution L J Y e.nu g q h) e
    e.N.toNat 0 0 (by omega)
    (fun z hz => ogatat_term_ok L B J Y e.nu g q h z (hcalls z (by simpa using hz)))
  simpa [ogatat, sum_first, toSizeT_of_nonneg e.N hN0 hN1] using this

/-- Instance of C2: three nodes over the table `3, 6, 9, 12` with Bessel
routines that never throw. -/
theorem ogatat_returns_de_sum_witness :
    ogatat toyLibm okBoost toyEngine (fun x => x) 1 1
      = .ok ⟨sum_first (de_contribution toyLibm (fun v x => v + x) (fun v x => v + 2 * x)
              toyEngine.nu (fun x => x) 1 1) toyEngine.jn_zeros0 toyEngine.N.toNat,
            toyEngine, []⟩
    ∧ sum_first (de_contribution toyLibm (fun v x => v + x) (fun v x => v + 2 * x)
              toyEngine.nu (fun x => x) 1 1) toyEngine.jn_zeros0 toyEngine.N.toNat = -149013 :=
  ⟨ogatat_returns_de_sum toyLibm okBoost (fun v x => v + x) (fun v x => v + 2 * x)
    toyEngine (fun x => x) 1 1 (by decide) (by decide) (by decide)
    (fun _ _ => ⟨rfl, rfl, rfl⟩), by decide⟩

/-- C8, as the code has it. When the Bessel calls on the table entries
`0 .. k-1` succeed and a Bessel call on entry `k < N` throws `ex`, the
exception is caught inside the call: `ogatau` (first part) and `ogatat`
(second part) print "Thrown exception" and return the sum of the
contributions of the entries `0 .. k-1`, which is `0` when `k = 0`. -/
theorem quadrature_returns_sum_before_throw [Add α] [Mul α] [Div α] [Neg α]
    [OfNat α 0] [OfNat α 1] [OfNat α 2]
    (L : Libm α) (B : Boost α ε) (J Y : α → α → α)
    (e : FBT α) (g : α → α) (q h : α) (k : Nat) (zk : α) (ex : ε)
    (hN0 : 0 ≤ e.N) (hN1 : e.N < 2 ^ 31) (hk : k < e.N.toNat)
    (hzk : e.jn_zeros0[k]? = some zk) :
    ((∀ z ∈ e.jn_zeros0.take k, PlainCallsSucceed L B J Y e.nu h z) →
      ogatau_term L B e.nu g q h zk = .error ex →
      ogatau L B e g q h
        = .ok ⟨sum_first (plain_contribution L J Y e.nu g q h) e.jn_zeros0 k, e,
            [.thrown ex]⟩)
    ∧ ((∀ z ∈ e.jn_zeros0.take k, DeCallsSucceed L B J Y e.nu h z) →
      ogatat_term L B e.nu g q h zk = .error ex →
      ogatat L B e g q h
        = .ok ⟨sum_first (de_contribution L J Y e.nu g q h) e.jn_zeros0 k, e,
            [.thrown ex]⟩) := by
  constructor
  · intro hcalls hthrow
    have := sum_loop_caught (ogatau_term L B e.nu g q h) (plain_contribution L J Y e.nu g q h)
      e ex k e.N.toNat 0 0 zk hk
      (fun z hz => ogatau_term_ok L B J Y e.nu g q h z (hcalls z (by simpa using hz)))
      (by simpa using hzk) hthrow
    simpa [ogatau, sum_first, toSizeT_of_nonneg e.N hN0 hN1] using this
  · intro hcalls hthrow
    have := sum_loop_caught (ogatat_term L B e.nu g q h) (de_contribution L J Y e.nu g q h)
      e ex k e.N.toNat 0 0 zk hk
      (fun z hz => ogatat_term_ok L B J Y e.nu g q h z (hcalls z (by simpa using hz)))
      (by simpa using hzk) hthrow
    simpa [ogatat, sum_first, toSizeT_of_nonneg e.N hN0 hN1] using this

/-- Instance of C8 as the code has it: `cyl_bessel_j` throws on the second
table entry, and both sums return the contribution of the first entry. -/
theorem quadrature_returns_sum_before_throw_witness :
    ogatau toyLibm failingBoost toyEngine (fun x => x) 1 1
        = .ok ⟨sum_first (plain_contribution toyLibm (fun _ _ => 1) (fun _ _ => 2)
            toyEngine.nu (fun x => x) 1 1) toyEngine.jn_zeros0 1, toyEngine,
            [.thrown "domain error"]⟩
    ∧ ogatat toyLibm failingBoost toyEngine (fun x => x) 1 1
        = .ok ⟨sum_first (de_contribution toyLibm (fun _ _ => 1) (fun _ _ => 2)
            toyEngine.nu (fun x => x) 1 1) toyEngine.jn_zeros0 1, toyEngine,
            [.thrown "domain error"]⟩ :=
  have h := quadrature_returns_sum_before_throw toyLibm failingBoost (fun _ _ => 1)
    (fun _ _ => 2) toyEngine (fun x => x) 1 1 1 6 "domain error" (by decide) (by decide)
    (by decide) rfl
  ⟨h.1 (by intro z hz; simp [toyEngine] at hz; subst hz; exact ⟨rfl, rfl, rfl⟩) rfl,
   h.2 (by intro z hz; simp [toyEngine] at hz; subst hz; exact ⟨rfl, rfl, rfl⟩) rfl⟩

/-- C8 fails as stated: with `cyl_bessel_j` throwing at the node of index
`1 < N = 3`, `ogatau` returns the number `2`, the contribution of node `0`
alone, and `ogatat` returns `18`. -/
theorem quadrature_returns_number_after_throw :
    failingBoost.cyl_bessel_j (toyEngine.nu + 1) (toyLibm.pi * (6 / toyLibm.pi))
        = .error "domain error"
    ∧ toyEngine.jn_zeros0[1]? = some 6
    ∧ ogatau toyLibm failingBoost toyEngine (fun x => x) 1 1
        = .ok ⟨2, toyEngine, [.thrown "domain error"]⟩
    ∧ ogatat toyLibm failingBoost toyEngine (fun x => x) 1 1
        = .ok ⟨18, toyEngine, [.thrown "domain error"]⟩ := by
  refine ⟨rfl, rfl, rfl, rfl⟩

end Quadrature

/-! ## Step sizes and the two transforms -/

section Steps

variable {α ε : Type}

/-- The loop leaves the object as it found it. -/
theorem sum_loop_self [Add α] (term : α → Except ε α) (e : FBT α) :
    ∀ (rem i : Nat) (val : α) (r : Ret α ε α),
      sum_loop term e rem i val = .ok r → r.self = e := by
  intro rem
  induction rem with
  | zero =>
    intro i val r h
    simp only [sum_loop, Except.ok.injEq] at h
    rw [← h]
  | succ rem ih =>
    intro i val r h
    rcases hz : e.jn_zeros0[i]? with _ | z
    · simp [sum_loop, hz] at h
    · rcases ht : term z with ex | t
      · simp only [sum_loop, hz, ht, Except.ok.injEq] at h
        rw [← h]
      · simp only [sum_loop, hz, ht] at h
        exact ih _ _ _ h

/-- The member function `get_hu` leaves the object as it found it. -/
theorem get_hu_self [Mul α] [Div α] [Neg α] [OfNat α 3] [OfNat α 10] [LE α]
    [DecidableRel (fun a b : α => a ≤ b)]
    (L : Libm α) (B : Boost α ε) (e : FBT α) (g : α → α) (q : α) (r : Ret α ε α)
    (h : get_hu L B e g q = .ok r) : r.self = e := by
  unfold get_hu at h
  rcases hz : e.jn_zeros0[0]? with _ | zero1
  · simp [hz] at h
  · rcases hm : B.brent_find_minima (fun x => f_for_get_hu L x g q) (e.Q / 10) (10 * e.Q)
        double_bits with ex | m
    · simp [hz, hm] at h
    · simp only [hz, hm] at h
      split at h
      · simp only [Except.ok.injEq] at h; rw [← h]
      · simp only [Except.ok.injEq] at h; rw [← h]

/-- The member function `get_ht` leaves the object as it found it. -/
theorem get_ht_self [Mul α] [Div α] [OfNat α 1] [OfNat α 2]
    (L : Libm α) (e : FBT α) (hu : α) (r : Ret α ε α)
    (h : get_ht L e hu = .ok r) : r.self = e := by
  unfold get_ht at h
  rcases hz : e.jn_zeros0[toSizeT (e.N - 1)]? with _ | zeroN
  · simp [hz] at h
  · simp only [hz, Except.ok.injEq] at h
    rw [← h]

/-- C4. With `zero_1` the first table entry and `x*` the argmin returned by
the minimiser for `phi(x) = -|x*g(x/q)|` on `[Q/10, 10*Q]`, `get_hu`
returns `x*/zero_1` when `x*/zero_1 < 3` and exactly `3` when
`x*/zero_1 >= 3`; the too-few-nodes warning is printed if and only if
`x*/zero_1 >= 3`; the returned step never exceeds `3`; the engine is left
unchanged.  The comparison is only assumed to satisfy
`a < b → a ≤ b ∧ ¬ b ≤ a`, which holds for doubles, NaN included. -/
theorem get_hu_clamps_at_three [Mul α] [Div α] [Neg α] [OfNat α 3] [OfNat α 10]
    [LE α] [LT α] [DecidableRel (fun a b : α => a ≤ b)]
    (L : Libm α) (B : Boost α ε) (e : FBT α) (g : α → α) (q zero1 : α) (r : α × α)
    (hord : ∀ a b : α, a < b → a ≤ b ∧ ¬ b ≤ a)
    (hz : e.jn_zeros0[0]? = some zero1)
    (hmin : B.brent_find_minima (fun x => f_for_get_hu L x g q) (e.Q / 10) (10 * e.Q)
      double_bits = .ok r) :
    ∃ res : Ret α ε α, get_hu L B e g q = .ok res ∧ res.self = e
      ∧ (r.1 / zero1 < 3 → res.val = r.1 / zero1)
      ∧ (r.1 / zero1 ≥ 3 → res.val = 3)
      ∧ (res.out.any Diag.isTooFew = true ↔ r.1 / zero1 ≥ 3)
      ∧ ¬ (3 < res.val) := by
  by_cases hc : r.1 / zero1 ≥ 3
  · refine ⟨⟨3, e, [.too_few_nodes e.N]⟩, ?_, rfl, ?_, fun _ => rfl, ?_, ?_⟩
    · simp only [get_hu, hz, hmin, hc, if_true]
    · intro hlt
      exact absurd hc (hord _ _ hlt).2
    · simp [Diag.isTooFew, hc]
    · intro h33
      exact (hord _ _ h33).2 (hord _ _ h33).1
  · refine ⟨⟨r.1 / zero1, e, []⟩, ?_, rfl, fun _ => rfl, fun h => absurd h hc, ?_, ?_⟩
    · simp only [get_hu, hz, hmin, hc, if_false]
    · simp [hc]
    · intro h3
      exact hc (hord _ _ h3).1

/-- Instance of C4 without clamping: the minimiser returns `x* = 6`, the
first zero is `3`, the step returned is `2`. -/
theorem get_hu_clamps_at_three_witness :
    ∃ res : Ret Int String Int,
      get_hu toyLibm okBoost toyEngine (fun x => x) 1 = .ok res ∧ res.self = toyEngine
      ∧ ((6 : Int) / 3 < 3 → res.val = 6 / 3)
      ∧ ((6 : Int) / 3 ≥ 3 → res.val = 3)
      ∧ (res.out.any Diag.isTooFew = true ↔ (6 : Int) / 3 ≥ 3)
      ∧ ¬ (3 < res.val) :=
  get_hu_clamps_at_three toyLibm okBoost toyEngine (fun x => x) 1 3
    (6, f_for_get_hu toyLibm 6 (fun x => x) 1)
    (fun _ _ h => ⟨Int.le_of_lt h, Int.not_le.mpr h⟩) rfl rfl

/-- Instance of the clamp of C4: the minimiser returns `x* = 100`, the first
zero is `3`, and `get_hu` returns `3` with the warning. -/
theorem get_hu_clamp_example :
    get_hu toyLibm failingBoost toyEngine (fun x => x) 1
      = .ok ⟨3, toyEngine, [.too_few_nodes 3]⟩ := by
  rfl

/-- C5. For every engine, `g` and `q`: when `get_hu` returns `hu` and
`ogatau` called with `hu` returns `v`, `fbtu` returns `v`; when `get_hu`
returns `hu`, `get_ht` returns `ht` for it and `ogatat` called with `ht`
returns `v`, `fbt` returns `v`; a call of `fbtu` or `fbt` that returns leaves
the engine (`nu`, `N`, `Q` and the zero table) as it was, so the same call
made again on the engine returns the same result. -/
theorem transforms_compose [Add α] [Mul α] [Div α] [Neg α]
    [OfNat α 0] [OfNat α 1] [OfNat α 2] [OfNat α 3] [OfNat α 10]
    [LE α] [DecidableRel (fun a b : α => a ≤ b)]
    (L : Libm α) (B : Boost α ε) (e : FBT α) (g : α → α) (q : α) :
    (∀ r1 r2 : Ret α ε α, get_hu L B e g q = .ok r1 → ogatau L B e g q r1.val = .ok r2 →
        fbtu L B e g q = .ok ⟨r2.val, e, r1.out ++ r2.out⟩)
    ∧ (∀ r1 r2 r3 : Ret α ε α, get_hu L B e g q = .ok r1 → get_ht L e r1.val = .ok r2 →
        ogatat L B e g q r2.val = .ok r3 →
        fbt L B e g q = .ok ⟨r3.val, e, r1.out ++ r2.out ++ r3.out⟩)
    ∧ (∀ r : Ret α ε α, fbtu L B e g q = .ok r →
        r.self = e ∧ fbtu L B r.self g q = .ok r)
    ∧ (∀ r : Ret α ε α, fbt L B e g q = .ok r →
        r.self = e ∧ fbt L B r.self g q = .ok r) := by
  have hu_self := get_hu_self L B e g q
  refine ⟨?_, ?_, ?_, ?_⟩
  · intro r1 r2 h1 h2
    have e1 := hu_self r1 h1
    have e2 : r2.self = e := sum_loop_self _ _ _ _ _ _ h2
    simp only [fbtu, h1, e1, h2, e2]
  · intro r1 r2 r3 h1 h2 h3
    have e1 := hu_self r1 h1
    have e2 := get_ht_self L e r1.val r2 h2
    have e3 : r3.self = e := sum_loop_self _ _ _ _ _ _ h3
    simp only [fbt, h1, e1, h2, e2, h3, e3]
  · intro r h
    have hs : r.self = e := by
      unfold fbtu at h
      rcases h1 : get_hu L B e g q with x | r1
      · simp [h1] at h
      · have e1 := hu_self r1 h1
        rw [h1] at h
        simp only [e1] at h
        rcases h2 : ogatau L B e g q r1.val with x | r2
        · simp [h2] at h
        · have e2 : r2.self = e := sum_loop_self _ _ _ _ _ _ h2
          simp only [h2, Except.ok.injEq] at h
          rw [← h]; exact e2
    exact ⟨hs, by rw [hs]; exact h⟩
  · intro r h
    have hs : r.self = e := by
      unfold fbt at h
      rcases h1 : get_hu L B e g q with x | r1
      · simp [h1] at h
      · have e1 := hu_self r1 h1
        rw [h1] at h
        simp only [e1] at h
        rcases h2 : (get_ht L e r1.val : Outcome α ε α) with x | r2
        · simp [h2] at h
        · have e2 := get_ht_self L e r1.val r2 h2
          simp only [h2, e2] at h
          rcases h3 : ogatat L B e g q r2.val with x | r3
          · simp [h3] at h
          · have e3 : r3.self = e := sum_loop_self _ _ _ _ _ _ h3
            simp only [h3, Except.ok.injEq] at h
            rw [← h]; exact e3
    exact ⟨hs, by rw [hs]; exact h⟩

/-- Instance of C5: on the three-node engine both transforms return, and
they return the values of the composed calls. -/
theorem transforms_compose_witness :
    get_hu toyLibm okBoost toyEngine (fun x => x) 1 = .ok ⟨2, toyEngine, []⟩
    ∧ ogatau toyLibm okBoost toyEngine (fun x => x) 1 2 = .ok ⟨112, toyEngine, []⟩
    ∧ fbtu toyLibm okBoost toyEngine (fun x => x) 1 = .ok ⟨112, toyEngine, []⟩
    ∧ fbtu toyLibm okBoost
        (⟨112, toyEngine, []⟩ : Ret Int String Int).self (fun x => x) 1
        = .ok ⟨112, toyEngine, []⟩ :=
  have h := transforms_compose toyLibm okBoost toyEngine (fun x => x) 1
  ⟨rfl, rfl, h.1 ⟨2, toyEngine, []⟩ ⟨112, toyEngine, []⟩ rfl rfl,
    (h.2.2.1 ⟨112, toyEngine, []⟩ rfl).2⟩

end Steps

/-! ## Construction -/

section Construction

variable {α ε : Type}

/-- The constructor always returns, and what it returns is read off its
three validations and the zero finder. -/
theorem construct_eq [OfNat α 0] [LE α] [LT α]
    [DecidableRel (fun a b : α => a ≤ b)] [DecidableRel (fun a b : α => a < b)]
    (D : Defaults α) (B : Boost α ε) (_nu : α) (_N : Int) (_Q : α) :
    ∃ (eng : FBT α) (log : List (Diag α ε)),
      construct D B _nu _N _Q = .ok (eng, log)
      ∧ eng.nu = (if _nu ≥ 0 then _nu else D.nu_def)
      ∧ eng.N = (if _N ≥ 1 then _N else D.N_def)
      ∧ eng.Q = (if _Q > 0 then _Q else D.Q_def)
      ∧ eng.jn_zeros0
          = (B.cyl_bessel_j_zero (if _nu ≥ 0 then _nu else D.nu_def) 1 maxN).1
      ∧ log.filter Diag.isNu
          = (if _nu ≥ 0 then [] else [.nu_unsupported _nu, .nu_fallback D.nu_def])
      ∧ log.filter Diag.isN
          = (if _N ≥ 1 then [] else [.N_unsupported _N, .N_fallback D.N_def])
      ∧ log.filter Diag.isQ
          = (if _Q > 0 then [] else [.Q_unsupported _Q, .Q_fallback D.Q_def])
      ∧ (∀ ex, (B.cyl_bessel_j_zero (if _nu ≥ 0 then _nu else D.nu_def) 1 maxN).2 = some ex →
          .thrown ex ∈ log) := by
  refine ⟨_, _, rfl, ?_, ?_, ?_, ?_, ?_, ?_, ?_, ?_⟩
  · simp only [init_nu]; split <;> rfl
  · simp only [init_N]; split <;> rfl
  · simp only [init_Q]; split <;> rfl
  · simp only [init_nu]; split <;> rfl
  · rcases hf : (B.cyl_bessel_j_zero (init_nu D _nu : α × List (Diag α ε)).1 1 maxN).2
      with _ | ex <;>
    by_cases h1 : _nu ≥ 0 <;> by_cases h2 : _N ≥ 1 <;> by_cases h3 : _Q > 0 <;>
    simp [init_nu, init_N, init_Q, h1, h2, h3, hf, Diag.isNu, List.filter]
  · rcases hf : (B.cyl_bessel_j_zero (init_nu D _nu : α × List (Diag α ε)).1 1 maxN).2
      with _ | ex <;>
    by_cases h1 : _nu ≥ 0 <;> by_cases h2 : _N ≥ 1 <;> by_cases h3 : _Q > 0 <;>
    simp [init_nu, init_N, init_Q, h1, h2, h3, hf, Diag.isN, List.filter]
  · rcases hf : (B.cyl_bessel_j_zero (init_nu D _nu : α × List (Diag α ε)).1 1 maxN).2
      with _ | ex <;>
    by_cases h1 : _nu ≥ 0 <;> by_cases h2 : _N ≥ 1 <;> by_cases h3 : _Q > 0 <;>
    simp [init_nu, init_N, init_Q, h1, h2, h3, hf, Diag.isQ, List.filter]
  · intro ex hex
    have hex2 : (B.cyl_bessel_j_zero (init_nu D _nu : α × List (Diag α ε)).1 1 maxN).2
        = some ex := by
      simp only [init_nu]; split <;> simp_all
    simp [hex2]

/-- A list has an element satisfying `p` exactly when filtering by `p`
leaves something. -/
theorem any_iff_filter_ne_nil {β : Type} (p : β → Bool) (l : List β) :
    l.any p = true ↔ l.filter p ≠ [] := by
  induction l with
  | nil => simp
  | cons a l ih =>
    by_cases ha : p a = true
    · simp [List.filter, ha]
    · simp only [Bool.not_eq_true] at ha
      simp [List.filter, ha, ih]

/-- C6. For every input `(nu, N, Q)` the constructor returns an engine whose
order is `nu` if `nu >= 0` and the default order otherwise, whose count is
`N` if `N >= 1` and the default count otherwise, and whose scale is `Q` if
`Q > 0` and the default scale otherwise; lines about a parameter are printed
exactly when that parameter was replaced; and any other construction given
the same value of one parameter sets that parameter, and prints about it, in
the same way, whatever the other two values are. -/
theorem construct_validates_each_parameter [OfNat α 0] [LE α] [LT α]
    [DecidableRel (fun a b : α => a ≤ b)] [DecidableRel (fun a b : α => a < b)]
    (D : Defaults α) (B : Boost α ε) (_nu : α) (_N : Int) (_Q : α) :
    ∃ (eng : FBT α) (log : List (Diag α ε)),
      construct D B _nu _N _Q = .ok (eng, log)
      ∧ eng.nu = (if _nu ≥ 0 then _nu else D.nu_def)
      ∧ eng.N = (if _N ≥ 1 then _N else D.N_def)
      ∧ eng.Q = (if _Q > 0 then _Q else D.Q_def)
      ∧ (log.any Diag.isNu = true ↔ ¬ _nu ≥ 0)
      ∧ (log.any Diag.isN = true ↔ ¬ _N ≥ 1)
      ∧ (log.any Diag.isQ = true ↔ ¬ _Q > 0)
      ∧ (∀ (nu2 : α) (N2 : Int) (Q2 : α) (eng2 : FBT α) (log2 : List (Diag α ε)),
          construct D B nu2 N2 Q2 = .ok (eng2, log2) →
          (nu2 = _nu → eng2.nu = eng.nu ∧ log2.filter Diag.isNu = log.filter Diag.isNu)
          ∧ (N2 = _N → eng2.N = eng.N ∧ log2.filter Diag.isN = log.filter Diag.isN)
          ∧ (Q2 = _Q → eng2.Q = eng.Q ∧ log2.filter Diag.isQ = log.filter Diag.isQ)) := by
  obtain ⟨eng, log, hc, hnu, hN, hQ, _, fnu, fN, fQ, _⟩ := construct_eq D B _nu _N _Q
  refine ⟨eng, log, hc, hnu, hN, hQ, ?_, ?_, ?_, ?_⟩
  · rw [any_iff_filter_ne_nil, fnu]; split <;> simp_all
  · rw [any_iff_filter_ne_nil, fN]; split <;> simp_all
  · rw [any_iff_filter_ne_nil, fQ]; split <;> simp_all
  · intro nu2 N2 Q2 eng2 log2 hc2
    obtain ⟨eng3, log3, hc3, hnu3, hN3, hQ3, _, fnu3, fN3, fQ3, _⟩ :=
      construct_eq D B nu2 N2 Q2
    rw [hc2] at hc3
    simp only [Except.ok.injEq, Prod.mk.injEq] at hc3
    obtain ⟨rfl, rfl⟩ := hc3
    refine ⟨?_, ?_, ?_⟩
    · rintro rfl; exact ⟨by rw [hnu3, hnu], by rw [fnu3, fnu]⟩
    · rintro rfl; exact ⟨by rw [hN3, hN], by rw [fN3, fN]⟩
    · rintro rfl; exact ⟨by rw [hQ3, hQ], by rw [fQ3, fQ]⟩

/-- Instance of C6 from the specification: `nu = -1`, `N = 0`, `Q = -5` are
each replaced by the default and each reported. -/
theorem construct_fallback_example :
    construct toyDefaults okBoost (-1) 0 (-5)
      = .ok (⟨0, 10, 1, (okBoost.cyl_bessel_j_zero 0 1 maxN).1⟩,
          [.nu_unsupported (-1), .nu_fallback 0, .N_unsupported 0, .N_fallback 10,
           .Q_unsupported (-5), .Q_fallback 1, .acknowledgement]) := by
  rfl

/-- C7, as the code has it. When the zero finder throws `ex` after appending
the entries `zs`, the constructor catches the exception: it prints "Thrown
exception", and returns to its caller an engine with the validated `nu`, `N`
and `Q` whose zero table is `zs`. -/
theorem construct_catches_zero_failure [OfNat α 0] [LE α] [LT α]
    [DecidableRel (fun a b : α => a ≤ b)] [DecidableRel (fun a b : α => a < b)]
    (D : Defaults α) (B : Boost α ε) (_nu : α) (_N : Int) (_Q : α) (zs : List α) (ex : ε)
    (hfail : B.cyl_bessel_j_zero (if _nu ≥ 0 then _nu else D.nu_def) 1 maxN = (zs, some ex)) :
    ∃ (eng : FBT α) (log : List (Diag α ε)),
      construct D B _nu _N _Q = .ok (eng, log)
      ∧ eng.jn_zeros0 = zs ∧ .thrown ex ∈ log
      ∧ eng.nu = (if _nu ≥ 0 then _nu else D.nu_def)
      ∧ eng.N = (if _N ≥ 1 then _N else D.N_def)
      ∧ eng.Q = (if _Q > 0 then _Q else D.Q_def) := by
  obtain ⟨eng, log, hc, hnu, hN, hQ, hz, _, _, _, hthrown⟩ := construct_eq D B _nu _N _Q
  refine ⟨eng, log, hc, ?_, ?_, hnu, hN, hQ⟩
  · rw [hz, hfail]
  · exact hthrown ex (by rw [hfail])

/-- Instance of C7 as the code has it. -/
theorem construct_catches_zero_failure_witness :
    ∃ (eng : FBT Int) (log : List (Diag Int String)),
      construct toyDefaults failingBoost 0 3 10 = .ok (eng, log)
      ∧ eng.jn_zeros0 = [] ∧ .thrown "evaluation error" ∈ log
      ∧ eng.nu = (if (0 : Int) ≥ 0 then 0 else toyDefaults.nu_def)
      ∧ eng.N = (if (3 : Int) ≥ 1 then 3 else toyDefaults.N_def)
      ∧ eng.Q = (if (10 : Int) > 0 then 10 else toyDefaults.Q_def) :=
  construct_catches_zero_failure toyDefaults failingBoost 0 3 10 [] "evaluation error" rfl

/-- C7 fails as stated: the zero finder throws during construction, and the
constructor returns an engine, with an empty zero table, instead of an
error. -/
theorem construct_returns_after_zero_failure :
    (failingBoost.cyl_bessel_j_zero 0 1 maxN).2 = some "evaluation error"
    ∧ construct toyDefaults failingBoost 0 3 10
        = .ok (⟨0, 3, 10, []⟩, [.thrown "evaluation error", .acknowledgement]) := by
  exact ⟨rfl, rfl⟩

/-- With Bessel routines that never throw, a pass of `ogatau` returns. -/
theorem ogatau_term_total [Add α] [Mul α] [Div α] [OfNat α 1]
    (L : Libm α) (B : Boost α ε) (nu : α) (g : α → α) (q h : α)
    (hJ : ∀ v x, ∃ y, B.cyl_bessel_j v x = .ok y)
    (hY : ∀ v x, ∃ y, B.cyl_neumann v x = .ok y) (z : α) :
    ∃ t, ogatau_term L B nu g q h z = .ok t := by
  obtain ⟨a, ha⟩ := hJ (nu + 1) (L.pi * (z / L.pi))
  obtain ⟨b, hb⟩ := hY nu (L.pi * (z / L.pi))
  obtain ⟨c, hc⟩ := hJ nu (z / L.pi * h)
  simp only [ogatau_term, ha, hb, hc]
  exact ⟨_, rfl⟩

/-- With Bessel routines that never throw, a pass of `ogatat` returns. -/
theorem ogatat_term_total [Add α] [Mul α] [Div α] [Neg α] [OfNat α 1] [OfNat α 2]
    (L : Libm α) (B : Boost α ε) (nu : α) (g : α → α) (q h : α)
    (hJ : ∀ v x, ∃ y, B.cyl_bessel_j v x = .ok y)
    (hY : ∀ v x, ∃ y, B.cyl_neumann v x = .ok y) (z : α) :
    ∃ t, ogatat_term L B nu g q h z = .ok t := by
  obtain ⟨a, ha⟩ := hJ (nu + 1) (L.pi * (z / L.pi))
  obtain ⟨b, hb⟩ := hY nu (L.pi * (z / L.pi))
  obtain ⟨c, hc⟩ := hJ nu (L.pi / h * get_psi L (h * (z / L.pi)))
  simp only [ogatat_term, ha, hb, hc]
  exact ⟨_, rfl⟩

/-- C9 fails on the code. The constructor accepts every `int` count
`N >= 1`, also above `maxN = 32769`; with the table filled with its `32769`
entries, `get_ht` then reads `jn_zeros0[N-1]` past the end of the table, and
so do `ogatau` and `ogatat` (at index `32769`) when no Bessel call throws. -/
theorem count_above_maxN_reads_past_table [Add α] [Mul α] [Div α] [Neg α]
    [OfNat α 0] [OfNat α 1] [OfNat α 2] [LE α] [LT α]
    [DecidableRel (fun a b : α => a ≤ b)] [DecidableRel (fun a b : α => a < b)]
    (L : Libm α) (D : Defaults α) (B : Boost α ε) (_nu : α) (_N : Int) (_Q : α)
    (hN : 32769 < _N) (hint : _N < 2 ^ 31)
    (hfill : (B.cyl_bessel_j_zero (if _nu ≥ 0 then _nu else D.nu_def) 1 maxN).1.length
      = maxN) :
    ∃ (eng : FBT α) (log : List (Diag α ε)),
      construct D B _nu _N _Q = .ok (eng, log)
      ∧ eng.N = _N ∧ eng.jn_zeros0.length = 32769
      ∧ (∀ hu, get_ht L eng hu = (.error .undefined : Outcome α ε α))
      ∧ ((∀ v x, ∃ y, B.cyl_bessel_j v x = .ok y) → (∀ v x, ∃ y, B.cyl_neumann v x = .ok y) →
          ∀ (g : α → α) (q h : α),
            ogatau L B eng g q h = .error .undefined
            ∧ ogatat L B eng g q h = .error .undefined) := by
  obtain ⟨eng, log, hc, _, hN2, _, hz, _, _, _, _⟩ := construct_eq D B _nu _N _Q
  have hNeq : eng.N = _N := by rw [hN2, if_pos (by omega)]
  have hlen : eng.jn_zeros0.length = 32769 := by rw [hz, hfill]; rfl
  have hsz : toSizeT eng.N = eng.N.toNat := toSizeT_of_nonneg _ (by omega) (by omega)
  refine ⟨eng, log, hc, hNeq, hlen, ?_, ?_⟩
  · intro hu
    have hsz1 : toSizeT (eng.N - 1) = (eng.N - 1).toNat :=
      toSizeT_of_nonneg _ (by omega) (by omega)
    have hnone : eng.jn_zeros0[toSizeT (eng.N - 1)]? = none :=
      List.getElem?_eq_none (by rw [hsz1, hlen]; omega)
    simp only [get_ht, hnone]
  · intro hJ hY g q h
    constructor
    · exact sum_loop_undefined _ eng (ogatau_term_total L B eng.nu g q h hJ hY) _ 0 0
        (by omega) (by rw [hsz, hlen]; omega)
    · exact sum_loop_undefined _ eng (ogatat_term_total L B eng.nu g q h hJ hY) _ 0 0
        (by omega) (by rw [hsz, hlen]; omega)

/-- Instance of the failure of C9: the count `N = 32770`. -/
theorem count_above_maxN_reads_past_table_witness :
    ∃ (eng : FBT Int) (log : List (Diag Int String)),
      construct toyDefaults okBoost 0 32770 1 = .ok (eng, log)
      ∧ eng.N = 32770 ∧ eng.jn_zeros0.length = 32769
      ∧ (∀ hu, get_ht toyLibm eng hu = (.error .undefined : Outcome Int String Int))
      ∧ ((∀ v x, ∃ y, okBoost.cyl_bessel_j v x = .ok y) →
          (∀ v x, ∃ y, okBoost.cyl_neumann v x = .ok y) →
          ∀ (g : Int → Int) (q h : Int),
            ogatau toyLibm okBoost eng g q h = .error .undefined
            ∧ ogatat toyLibm okBoost eng g q h = .error .undefined) :=
  count_above_maxN_reads_past_table toyLibm toyDefaults okBoost 0 32770 1
    (by decide) (by decide) (by simp [okBoost])

end Construction

/-! ## Exact real arithmetic: the map `psi` and the step `ht` -/

section ExactArithmetic

/-- Derivative of the hyperbolic tangent. -/
theorem hasDerivAt_real_tanh (x : ℝ) : HasDerivAt Real.tanh (1 - Real.tanh x ^ 2) x := by
  have hc : Real.cosh x ≠ 0 := (Real.cosh_pos x).ne'
  have h := (Real.hasDerivAt_sinh x).div (Real.hasDerivAt_cosh x) hc
  have hfun : Real.tanh = fun y => Real.sinh y / Real.cosh y := by
    funext y; exact Real.tanh_eq_sinh_div_cosh y
  rw [hfun]
  convert h using 1
  field_simp
  have := Real.cosh_sq x
  nlinarith [this]

/-- The hyperbolic tangent is injective. -/
theorem real_tanh_injective : Function.Injective Real.tanh := by
  intro a b h
  rw [Real.tanh_eq_sinh_div_cosh, Real.tanh_eq_sinh_div_cosh,
    div_eq_div_iff (Real.cosh_pos a).ne' (Real.cosh_pos b).ne'] at h
  have : Real.sinh (a - b) = 0 := by
    rw [Real.sinh_sub]; linarith
  have := Real.sinh_eq_zero.mp this
  linarith

/-- The logarithmic formula inverts the hyperbolic tangent on `(-1, 1)`. -/
theorem real_tanh_half_log (y : ℝ) (h1 : -1 < y) (h2 : y < 1) :
    Real.tanh (Real.log ((1 + y) / (1 - y)) / 2) = y := by
  have hr : 0 < (1 + y) / (1 - y) := div_pos (by linarith) (by linarith)
  set x := Real.log ((1 + y) / (1 - y)) / 2 with hx
  have hu : 0 < Real.exp x := Real.exp_pos x
  have hu2 : Real.exp x * Real.exp x = (1 + y) / (1 - y) := by
    rw [← Real.exp_add, hx, add_halves, Real.exp_log hr]
  have hy : (1 - y) ≠ 0 := by linarith
  rw [Real.tanh_eq_sinh_div_cosh, Real.sinh_eq, Real.cosh_eq, Real.exp_neg]
  have hu0 := hu.ne'
  rw [eq_div_iff hy] at hu2
  field_simp
  nlinarith [hu2]

/-- The real functions, with the logarithmic formula for `atanh`, form an
exact math library. -/
theorem exactReal_standard :
    ExactReal ⟨Real.pi, Real.sinh, Real.cosh, Real.tanh, Real.arsinh,
      fun y => Real.log ((1 + y) / (1 - y)) / 2, fun x y => x ^ y, fun x => |x|,
      fun _ => false⟩ where
  pi_eq := rfl
  sinh_eq := rfl
  cosh_eq := rfl
  tanh_eq := rfl
  asinh_eq := rfl
  tanh_atanh := real_tanh_half_log
  pow_eq := rfl
  abs_eq := rfl
  isnan_eq := fun _ => rfl

/-- C10. In exact real arithmetic `get_psi` is `t * tanh(pi/2 * sinh t)`,
`get_psip` is `pi*t*(1 - tanh(pi*sinh(t)/2)^2)*cosh(t)/2 + tanh(pi*sinh(t)/2)`,
and at every real `t` the function `get_psi` is differentiable with
derivative `get_psip t`. -/
theorem get_psip_is_derivative_of_get_psi (L : Libm ℝ) (hL : ExactReal L) (t : ℝ) :
    get_psi L t = t * Real.tanh (Real.pi / 2 * Real.sinh t)
    ∧ get_psip L t
        = Real.pi * t * (1 - Real.tanh (Real.pi * Real.sinh t / 2) ^ 2) * Real.cosh t / 2
          + Real.tanh (Real.pi * Real.sinh t / 2)
    ∧ HasDerivAt (get_psi L) (get_psip L t) t := by
  have hpsi : get_psi L = fun t => t * Real.tanh (Real.pi / 2 * Real.sinh t) := by
    funext s
    simp only [get_psi, hL.pi_eq, hL.tanh_eq, hL.sinh_eq]
  have hpsip : get_psip L t
      = Real.pi * t * (1 - Real.tanh (Real.pi * Real.sinh t / 2) ^ 2) * Real.cosh t / 2
          + Real.tanh (Real.pi * Real.sinh t / 2) := by
    simp only [get_psip, hL.pi_eq, hL.tanh_eq, hL.sinh_eq, hL.cosh_eq, hL.pow_eq,
      Real.rpow_two]
    ring
  refine ⟨by rw [hpsi], hpsip, ?_⟩
  rw [hpsi, hpsip]
  have hin : HasDerivAt (fun s => Real.pi / 2 * Real.sinh s) (Real.pi / 2 * Real.cosh t) t :=
    (Real.hasDerivAt_sinh t).const_mul (Real.pi / 2)
  have hout := (hasDerivAt_real_tanh (Real.pi / 2 * Real.sinh t)).comp t hin
  have hmul := (hasDerivAt_id t).mul hout
  convert hmul using 1
  have harg : Real.pi * Real.sinh t / 2 = Real.pi / 2 * Real.sinh t := by ring
  simp only [harg, id, Function.comp_apply]
  ring

/-- Instance of C10 at `t = 1` with the real functions. -/
theorem get_psip_is_derivative_of_get_psi_witness :
    HasDerivAt
      (get_psi ⟨Real.pi, Real.sinh, Real.cosh, Real.tanh, Real.arsinh,
        fun y => Real.log ((1 + y) / (1 - y)) / 2, fun x y => x ^ y, fun x => |x|,
        fun _ => false⟩)
      (get_psip ⟨Real.pi, Real.sinh, Real.cosh, Real.tanh, Real.arsinh,
        fun y => Real.log ((1 + y) / (1 - y)) / 2, fun x y => x ^ y, fun x => |x|,
        fun _ => false⟩ 1) 1 :=
  (get_psip_is_derivative_of_get_psi _ exactReal_standard 1).2.2

/-- In exact real arithmetic the step `pi/zeroN * asinh(2/pi * atanh(hu/pi))`
is a root of `f_for_get_ht`. -/
theorem f_for_get_ht_root (L : Libm ℝ) (hL : ExactReal L) (hu zeroN : ℝ)
    (hpos : 0 < zeroN) (h1 : -Real.pi < hu) (h2 : hu < Real.pi) :
    f_for_get_ht L (L.pi / zeroN * L.asinh (2 / L.pi * L.atanh (hu / L.pi))) hu zeroN = 0 := by
  have hpi := Real.pi_pos
  have hy1 : -1 < hu / Real.pi := by rw [lt_div_iff₀ hpi]; linarith
  have hy2 : hu / Real.pi < 1 := by rw [div_lt_iff₀ hpi]; linarith
  have ht := hL.tanh_atanh (hu / Real.pi) hy1 hy2
  simp only [f_for_get_ht, hL.pi_eq, hL.tanh_eq, hL.sinh_eq, hL.asinh_eq]
  have harg : Real.pi / zeroN * Real.arsinh (2 / Real.pi * L.atanh (hu / Real.pi)) * zeroN
      / Real.pi = Real.arsinh (2 / Real.pi * L.atanh (hu / Real.pi)) := by
    field_simp
  rw [harg, Real.sinh_arsinh]
  have harg2 : Real.pi / 2 * (2 / Real.pi * L.atanh (hu / Real.pi)) = L.atanh (hu / Real.pi) := by
    field_simp
    ring
  rw [harg2, ht]
  field_simp

/-- C3 fails on the code. In exact real arithmetic, for `-pi < hu < pi` and
`zero_N > 0` the last used table entry, `get_ht` returns
`ht = 1/pi/zero_N * asinh(2/pi * atanh(hu/pi))`, and this is a root of
`f_for_get_ht` only when `hu = 0`: the factor should be `pi/zero_N`. -/
theorem get_ht_is_root_only_at_zero {ε : Type} (L : Libm ℝ) (hL : ExactReal L)
    (e : FBT ℝ) (hu zeroN : ℝ)
    (hz : e.jn_zeros0[toSizeT (e.N - 1)]? = some zeroN)
    (hpos : 0 < zeroN) (h1 : -Real.pi < hu) (h2 : hu < Real.pi) :
    ∃ r : Ret ℝ ε ℝ, get_ht L e hu = .ok r
      ∧ r.val = 1 / Real.pi / zeroN * Real.arsinh (2 / Real.pi * L.atanh (hu / Real.pi))
      ∧ (f_for_get_ht L r.val hu zeroN = 0 ↔ hu = 0) := by
  have hpi := Real.pi_pos
  have hpi3 := Real.pi_gt_three
  have hy1 : -1 < hu / Real.pi := by rw [lt_div_iff₀ hpi]; linarith
  have hy2 : hu / Real.pi < 1 := by rw [div_lt_iff₀ hpi]; linarith
  have ht := hL.tanh_atanh (hu / Real.pi) hy1 hy2
  refine ⟨⟨1 / Real.pi / zeroN * Real.arsinh (2 / Real.pi * L.atanh (hu / Real.pi)), e, []⟩,
    ?_, rfl, ?_⟩
  · simp only [get_ht, hz, hL.pi_eq, hL.asinh_eq]
  · simp only [f_for_get_ht, hL.pi_eq, hL.tanh_eq, hL.sinh_eq]
    set a := L.atanh (hu / Real.pi) with ha
    set A := Real.arsinh (2 / Real.pi * a) with hA
    have harg : 1 / Real.pi / zeroN * A * zeroN / Real.pi = A / Real.pi ^ 2 := by
      field_simp
      ring
    rw [harg]
    constructor
    · intro hf
      have h3 : Real.tanh (Real.pi / 2 * Real.sinh (A / Real.pi ^ 2)) = Real.tanh a := by
        rw [ht, eq_div_iff hpi.ne']; linarith
      have h4 : Real.pi / 2 * Real.sinh (A / Real.pi ^ 2) = a := real_tanh_injective h3
      have h5 : Real.sinh (A / Real.pi ^ 2) = Real.sinh A := by
        rw [hA, Real.sinh_arsinh, ← hA, ← h4]; field_simp; ring
      have h6 : A / Real.pi ^ 2 = A := Real.sinh_injective h5
      have h7 : A = 0 := by
        have hne : Real.pi ^ 2 ≠ 0 := by positivity
        rw [div_eq_iff hne] at h6
        have : A * (Real.pi ^ 2 - 1) = 0 := by linarith
        rcases mul_eq_zero.mp this with h | h
        · exact h
        · nlinarith
      have h8 : 2 / Real.pi * a = 0 := Real.arsinh_eq_zero_iff.mp h7
      have h9 : a = 0 := by
        rcases mul_eq_zero.mp h8 with h | h
        · exact absurd h (by positivity)
        · exact h
      rw [h9, Real.tanh_zero] at ht
      have := (div_eq_zero_iff.mp ht.symm)
      rcases this with h | h
      · exact h
      · exact absurd h hpi.ne'
    · intro h0
      have h9 : a = 0 := by
        apply real_tanh_injective
        rw [ht, Real.tanh_zero, h0, zero_div]
      have h7 : A = 0 := by rw [hA, h9, mul_zero, Real.arsinh_zero]
      rw [h7, h0]
      simp

/-- Instance of the failure of C3: for `hu = 1` and a one-node engine whose
table entry is `1`, the step returned by `get_ht` is not a root. -/
theorem get_ht_is_root_only_at_zero_witness :
    ∃ r : Ret ℝ String ℝ,
      get_ht ⟨Real.pi, Real.sinh, Real.cosh, Real.tanh, Real.arsinh,
        fun y => Real.log ((1 + y) / (1 - y)) / 2, fun x y => x ^ y, fun x => |x|,
        fun _ => false⟩ ⟨0, 1, 1, [1]⟩ 1 = .ok r
      ∧ r.val = 1 / Real.pi / 1 * Real.arsinh (2 / Real.pi *
          (Real.log ((1 + 1 / Real.pi) / (1 - 1 / Real.pi)) / 2))
      ∧ (f_for_get_ht ⟨Real.pi, Real.sinh, Real.cosh, Real.tanh, Real.arsinh,
        fun y => Real.log ((1 + y) / (1 - y)) / 2, fun x y => x ^ y, fun x => |x|,
        fun _ => false⟩ r.val 1 1 = 0 ↔ (1 : ℝ) = 0) :=
  get_ht_is_root_only_at_zero _ exactReal_standard ⟨0, 1, 1, [1]⟩ 1 1
    (by simp [toSizeT]) one_pos (by linarith [Real.pi_gt_three]) (by linarith [Real.pi_gt_three])

end ExactArithmetic

end Ogata
